import Mathlib

/-!
Shallow embedding of the credit-risk data-preparation pipeline
(`src/data_preparation.py`) and proofs about its specification.

Modelling conventions:
* A pandas `float64` cell is a value of type `Fl`: a finite rational,
  NaN (which doubles as the missing marker in float columns), or ±infinity.
  Finite-float arithmetic is idealised by exact rational arithmetic; the
  NaN/infinity propagation rules follow IEEE-754 as numpy implements them.
* A pandas nullable `Float64` cell is `Option ℚ` (`none` = `pd.NA`).
* An `object` cell is `Option String` (`none` = NaN).
* A DataFrame keyed by `SK_ID_CURR` is a `KDF`: the integer key column plus
  the remaining named columns, each a typed `Series`.
-/

/-- A pandas float64 value: finite rational, NaN, or an infinity. -/
inductive Fl where
  | fin (q : ℚ)
  | nan
  | inf
  | ninf
deriving DecidableEq

/-- Is this float value NaN (pandas' missing marker for float columns)? -/
def Fl.isNan : Fl → Bool
  | Fl.nan => true
  | _ => false

/-- IEEE-style addition on float values (numpy semantics). -/
def fadd : Fl → Fl → Fl
  | Fl.nan, _ => Fl.nan
  | _, Fl.nan => Fl.nan
  | Fl.fin a, Fl.fin b => Fl.fin (a + b)
  | Fl.inf, Fl.ninf => Fl.nan
  | Fl.ninf, Fl.inf => Fl.nan
  | Fl.inf, _ => Fl.inf
  | _, Fl.inf => Fl.inf
  | Fl.ninf, _ => Fl.ninf
  | _, Fl.ninf => Fl.ninf

/-- IEEE-style subtraction on float values (numpy semantics). -/
def fsub : Fl → Fl → Fl
  | Fl.nan, _ => Fl.nan
  | _, Fl.nan => Fl.nan
  | Fl.fin a, Fl.fin b => Fl.fin (a - b)
  | Fl.inf, Fl.inf => Fl.nan
  | Fl.ninf, Fl.ninf => Fl.nan
  | Fl.inf, _ => Fl.inf
  | Fl.ninf, _ => Fl.ninf
  | _, Fl.inf => Fl.ninf
  | _, Fl.ninf => Fl.inf

/-- IEEE-style division on float values (numpy semantics):
`0/0 = NaN`, `a/0 = ±inf` for finite `a ≠ 0`, `a/±inf = 0`,
`±inf/±inf = NaN`, NaN propagates. -/
def fdiv : Fl → Fl → Fl
  | Fl.nan, _ => Fl.nan
  | _, Fl.nan => Fl.nan
  | Fl.fin a, Fl.fin b =>
      if b = 0 then (if a = 0 then Fl.nan else if 0 < a then Fl.inf else Fl.ninf)
      else Fl.fin (a / b)
  | Fl.fin _, Fl.inf => Fl.fin 0
  | Fl.fin _, Fl.ninf => Fl.fin 0
  | Fl.inf, Fl.fin b => if b < 0 then Fl.ninf else Fl.inf
  | Fl.ninf, Fl.fin b => if b < 0 then Fl.inf else Fl.ninf
  | Fl.inf, Fl.inf => Fl.nan
  | Fl.inf, Fl.ninf => Fl.nan
  | Fl.ninf, Fl.inf => Fl.nan
  | Fl.ninf, Fl.ninf => Fl.nan

/-- Pandas `Series.sum()` with its default `skipna=True`:
NaN entries are dropped, the empty sum is `0.0`. -/
def fsum (l : List Fl) : Fl :=
  (l.filter (fun v => !v.isNan)).foldl fadd (Fl.fin 0)

/-- Pandas `Series.mean()` with its default `skipna=True`:
sum of the non-NaN entries divided by their count; NaN if none. -/
def fmean (l : List Fl) : Fl :=
  let xs := l.filter (fun v => !v.isNan)
  if xs.isEmpty then Fl.nan
  else fdiv (xs.foldl fadd (Fl.fin 0)) (Fl.fin (xs.length : ℚ))

/-- Total order used for sorting float values with NaN already removed:
`-inf < finite < +inf`. -/
def flLe : Fl → Fl → Bool
  | Fl.ninf, _ => true
  | _, Fl.inf => true
  | Fl.fin a, Fl.fin b => decide (a ≤ b)
  | _, _ => false

/-- Pandas `Series.max()` with its default `skipna=True`:
maximum of the non-NaN entries, NaN if there are none. -/
def fmax (l : List Fl) : Fl :=
  match l.filter (fun v => !v.isNan) with
  | [] => Fl.nan
  | y :: ys => ys.foldl (fun a b => if flLe a b then b else a) y

/-- Insert a float value into a `flLe`-sorted list. -/
def insertFl (x : Fl) : List Fl → List Fl
  | [] => [x]
  | y :: ys => if flLe x y then x :: y :: ys else y :: insertFl x ys

/-- Insertion sort of float values by `flLe`. -/
def sortFl : List Fl → List Fl
  | [] => []
  | x :: xs => insertFl x (sortFl xs)

/-- Average of two float values, as numpy computes the median of an
even-length sample: `(a + b) / 2`. -/
def favg (a b : Fl) : Fl := fdiv (fadd a b) (Fl.fin 2)

/-- Pandas `Series.median()` with its default `skipna=True`: drop NaN,
sort, take the middle element (odd count) or the average of the two middle
elements (even count); NaN when no value remains. -/
def medianFl (l : List Fl) : Fl :=
  let xs := sortFl (l.filter (fun v => !v.isNan))
  let n := xs.length
  if n = 0 then Fl.nan
  else if n % 2 = 1 then xs.getD (n / 2) Fl.nan
  else favg (xs.getD (n / 2 - 1) Fl.nan) (xs.getD (n / 2) Fl.nan)

/-- `Series.fillna(0)` applied to a single value (line 34 of the source):
NaN becomes `0`, everything else — infinities included — is unchanged. -/
def fillna0 (v : Fl) : Fl := if v.isNan then Fl.fin 0 else v

/-- Composite of `.replace([inf, -inf], pd.NA).astype("Float64")`
(lines 80–84 of the source): infinities are replaced by `pd.NA`, the cast
to the nullable `Float64` dtype turns NaN into `pd.NA`, finite values are
kept. -/
def toFloat64NA : Fl → Option ℚ
  | Fl.fin q => some q
  | _ => none

/-- A typed pandas column: `float64`, `int64`, nullable `Float64`, or
`object` (strings with NaN as `none`). -/
inductive Series where
  | f64 (vs : List Fl)
  | i64 (vs : List ℤ)
  | nf64 (vs : List (Option ℚ))
  | obj (vs : List (Option String))
deriving DecidableEq

/-- A DataFrame keyed by the `SK_ID_CURR` column: the key column plus the
remaining named columns. -/
structure KDF where
  keys : List ℤ
  cols : List (String × Series)
deriving DecidableEq

/-- Number of rows of a keyed DataFrame. -/
def nrow (df : KDF) : ℕ := df.keys.length

/-- Positions (0-based, starting at `i`) of the occurrences of key `k` in a
key column. -/
def matchIdxsAux (k : ℤ) : List ℤ → ℕ → List ℕ
  | [], _ => []
  | b :: bs, i => if b = k then i :: matchIdxsAux k bs (i + 1) else matchIdxsAux k bs (i + 1)

/-- Row plan of a left merge for one left key: the matching right-hand row
indices, or a single unmatched marker (`none`) when there is no match. -/
def planFor (bkeys : List ℤ) (k : ℤ) : List (Option ℕ) :=
  let ms := (matchIdxsAux k bkeys 0).map some
  if ms.isEmpty then [none] else ms

/-- Full row plan of a left merge: for each left row (key `k` at position
`i`) one output triple `(k, i, j?)` per matching right row `j`, or a single
`(k, i, none)` row when unmatched. -/
def mergePlanAux (bkeys : List ℤ) : List ℤ → ℕ → List (ℤ × ℕ × Option ℕ)
  | [], _ => []
  | k :: ks, i => ((planFor bkeys k).map (fun j => (k, i, j))) ++ mergePlanAux bkeys ks (i + 1)

/-- Row plan of `left.merge(right, on="SK_ID_CURR", how="left")`. -/
def mergePlan (akeys bkeys : List ℤ) : List (ℤ × ℕ × Option ℕ) :=
  mergePlanAux bkeys akeys 0

/-- Reindex a column along a merge plan. A `none` index is an unmatched
left row: it receives the column's missing marker. As in pandas, an
`int64` column that receives missing values is upcast to `float64`. -/
def gatherS (s : Series) (idx : List (Option ℕ)) : Series :=
  match s with
  | Series.f64 vs => Series.f64 (idx.map (fun o => match o with
      | some j => vs.getD j Fl.nan
      | none => Fl.nan))
  | Series.i64 vs =>
      if idx.all (fun o => o.isSome) then
        Series.i64 (idx.map (fun o => match o with
          | some j => vs.getD j 0
          | none => 0))
      else
        Series.f64 (idx.map (fun o => match o with
          | some j => Fl.fin ((vs.getD j 0 : ℤ) : ℚ)
          | none => Fl.nan))
  | Series.nf64 vs => Series.nf64 (idx.map (fun o => match o with
      | some j => vs.getD j none
      | none => none))
  | Series.obj vs => Series.obj (idx.map (fun o => match o with
      | some j => vs.getD j none
      | none => none))

/-- `a.merge(b, on="SK_ID_CURR", how="left")`: every left row is kept once
per matching right row (once with missing cells when unmatched); columns of
both sides are reindexed along the row plan. -/
def leftMergeK (a b : KDF) : KDF :=
  let plan := mergePlan a.keys b.keys
  { keys := plan.map (fun t => t.1)
    cols :=
      a.cols.map (fun c => (c.1, gatherS c.2 (plan.map (fun t => some t.2.1)))) ++
      b.cols.map (fun c => (c.1, gatherS c.2 (plan.map (fun t => t.2.2)))) }

/-- `merge_all_features` (source lines 115–129): sequential left joins of
the application table with each feature table, keyed by `SK_ID_CURR`. -/
def merge_all_features (app_df : KDF) (feature_dfs : List KDF) : KDF :=
  feature_dfs.foldl leftMergeK app_df

/-- Distinct elements of a list in first-seen order (the key order of
`pd.factorize` and the distinct grouping keys before sorting). -/
def uniqueFS {α : Type} [DecidableEq α] (l : List α) : List α :=
  (l.reverse.dedup).reverse

/-- Grouping keys of `groupby("SK_ID_CURR")` (pandas defaults): missing
keys are dropped, the distinct remaining keys are sorted ascending. -/
def keysOf (ks : List (Option ℤ)) : List ℤ :=
  List.insertionSort (fun a b => a ≤ b) (uniqueFS (ks.filterMap id))

/-- One row of `bureau.csv`, restricted to the columns the pipeline reads. -/
structure BureauRec where
  sk_id_curr : Option ℤ
  sk_id_bureau : Option ℤ
  amt_credit_sum : Fl
  amt_credit_sum_debt : Fl
  days_credit : Fl
deriving DecidableEq

/-- One row of `bureau_balance.csv`. -/
structure BureauBalanceRec where
  sk_id_bureau : Option ℤ
  months_balance : Fl
  status : Option String
deriving DecidableEq

/-- One row of `previous_application.csv`, restricted to the columns the
pipeline reads. -/
structure PrevRec where
  sk_id_curr : Option ℤ
  sk_id_prev : Option ℤ
  amt_application : Fl
  amt_credit : Fl
  amt_down_payment : Fl
  amt_annuity : Fl
  cnt_payment : Fl
  days_decision : Fl
deriving DecidableEq

/-- One row of `installments_payments.csv`, restricted to the columns the
pipeline reads. -/
structure InstRec where
  sk_id_curr : Option ℤ
  days_instalment : Fl
  days_entry_payment : Fl
  amt_instalment : Fl
  amt_payment : Fl
deriving DecidableEq

/-- Rows of a table belonging to the group of client `k`: exactly the rows
whose `SK_ID_CURR` equals `k` (rows with a missing key are in no group). -/
def rowsBy {α : Type} (key : α → Option ℤ) (l : List α) (k : ℤ) : List α :=
  l.filter (fun r => key r == some k)

/-- The bureau group of client `k`. -/
def bureauRows (bureau : List BureauRec) (k : ℤ) : List BureauRec :=
  rowsBy (fun r => r.sk_id_curr) bureau k

/-- `DEBT_CREDIT_RATIO` of client `k` (source lines 33–34): summed debt
divided by summed credit, then `fillna(0)`. -/
def debtCreditRatioOf (bureau : List BureauRec) (k : ℤ) : Fl :=
  fillna0 (fdiv (fsum ((bureauRows bureau k).map (fun r => r.amt_credit_sum_debt)))
                (fsum ((bureauRows bureau k).map (fun r => r.amt_credit_sum))))

/-- The `bureau.groupby("SK_ID_CURR").agg(...)` table with its engineered
`DEBT_CREDIT_RATIO` column (source lines 22–34), after `reset_index`. -/
def bureauAggKDF (bureau : List BureauRec) : KDF :=
  let ks := keysOf (bureau.map (fun r => r.sk_id_curr))
  { keys := ks
    cols := [
      ("AMT_CREDIT_SUM_mean", Series.f64 (ks.map (fun k =>
        fmean ((bureauRows bureau k).map (fun r => r.amt_credit_sum))))),
      ("AMT_CREDIT_SUM_sum", Series.f64 (ks.map (fun k =>
        fsum ((bureauRows bureau k).map (fun r => r.amt_credit_sum))))),
      ("AMT_CREDIT_SUM_DEBT_mean", Series.f64 (ks.map (fun k =>
        fmean ((bureauRows bureau k).map (fun r => r.amt_credit_sum_debt))))),
      ("AMT_CREDIT_SUM_DEBT_sum", Series.f64 (ks.map (fun k =>
        fsum ((bureauRows bureau k).map (fun r => r.amt_credit_sum_debt))))),
      ("DAYS_CREDIT_mean", Series.f64 (ks.map (fun k =>
        fmean ((bureauRows bureau k).map (fun r => r.days_credit))))),
      ("SK_ID_BUREAU_count", Series.i64 (ks.map (fun k =>
        (((bureauRows bureau k).filterMap (fun r => r.sk_id_bureau)).length : ℤ)))),
      ("DEBT_CREDIT_RATIO", Series.f64 (ks.map (fun k => debtCreditRatioOf bureau k)))
    ] }

/-- Observed `STATUS` values of `bureau_balance`, in the sorted order in
which `pd.get_dummies` creates the indicator columns. -/
def statusesOf (bb : List BureauBalanceRec) : List String :=
  List.insertionSort (fun a b => a ≤ b) (uniqueFS (bb.filterMap (fun r => r.status)))

/-- One row of `bb_agg` (source lines 40–41): for one `SK_ID_BUREAU`, the
mean of `MONTHS_BALANCE` and the mean of each status indicator (the
fraction of history months spent in each status). -/
def bbAggFeat (bb : List BureauBalanceRec) (statuses : List String) (b : ℤ) : Fl × List Fl :=
  let rows := rowsBy (fun r => r.sk_id_bureau) bb b
  (fmean (rows.map (fun r => r.months_balance)),
   statuses.map (fun s =>
     fmean (rows.map (fun r => if r.status = some s then Fl.fin 1 else Fl.fin 0))))

/-- One row of the merge on `SK_ID_BUREAU` (source line 44): a bureau row
keeps its client key and receives the matching `bb_agg` cells, or `none`
(all-NaN cells) when `bb_agg` has no row for its bureau identifier. -/
def bureauBBrow (bb : List BureauBalanceRec) (r : BureauRec) :
    Option ℤ × Option (Fl × List Fl) :=
  (r.sk_id_curr,
   match r.sk_id_bureau with
   | some b =>
       if b ∈ keysOf (bb.map (fun x => x.sk_id_bureau)) then
         some (bbAggFeat bb (statusesOf bb) b)
       else none
   | none => none)

/-- `bureau[["SK_ID_BUREAU","SK_ID_CURR"]].merge(bb_agg, on="SK_ID_BUREAU",
how="left")` (source line 44), keeping only what the next group-by uses:
the client key and the merged `bb_agg` cells. -/
def bureauBB (bureau : List BureauRec) (bb : List BureauBalanceRec) :
    List (Option ℤ × Option (Fl × List Fl)) :=
  bureau.map (bureauBBrow bb)

/-- `MONTHS_BALANCE` cell of a `bureau_bb` row (NaN when the left merge
found no `bb_agg` match). -/
def bbMonths (p : Option ℤ × Option (Fl × List Fl)) : Fl :=
  match p.2 with
  | some m => m.1
  | none => Fl.nan

/-- Status-fraction cell `j` of a `bureau_bb` row (NaN when the left merge
found no `bb_agg` match). -/
def bbFrac (j : ℕ) (p : Option ℤ × Option (Fl × List Fl)) : Fl :=
  match p.2 with
  | some m => m.2.getD j Fl.nan
  | none => Fl.nan

/-- `bb_final` (source line 47): drop `SK_ID_BUREAU`, group `bureau_bb` by
`SK_ID_CURR` and take the mean of every remaining column. -/
def bbFinalKDF (bureau : List BureauRec) (bb : List BureauBalanceRec) : KDF :=
  let rows := bureauBB bureau bb
  let ks := keysOf (rows.map (fun p => p.1))
  { keys := ks
    cols :=
      ("MONTHS_BALANCE", Series.f64 (ks.map (fun k =>
        fmean ((rowsBy (fun p => p.1) rows k).map bbMonths)))) ::
      (statusesOf bb).enum.map (fun sj =>
        ("STATUS_" ++ sj.2, Series.f64 (ks.map (fun k =>
          fmean ((rowsBy (fun p => p.1) rows k).map (bbFrac sj.1)))))) }

/-- `preprocess_bureau_data` (source lines 14–54): the bureau aggregation
table left-joined with the per-client bureau-balance summary. -/
def preprocess_bureau_data (bureau : List BureauRec) (bb : List BureauBalanceRec) : KDF :=
  leftMergeK (bureauAggKDF bureau) (bbFinalKDF bureau bb)

/-- The previous-application group of client `k`. -/
def prevRows (prev : List PrevRec) (k : ℤ) : List PrevRec :=
  rowsBy (fun r => r.sk_id_curr) prev k

/-- `PREV_CREDIT_TO_APPLICATION_RATIO` of client `k` (source lines 76–84):
summed approved credit over summed requested amount, with infinities
replaced by `pd.NA` and the column cast to nullable `Float64`. -/
def prevCreditToApplicationRatioOf (prev : List PrevRec) (k : ℤ) : Option ℚ :=
  toFloat64NA (fdiv (fsum ((prevRows prev k).map (fun r => r.amt_credit)))
                    (fsum ((prevRows prev k).map (fun r => r.amt_application))))

/-- `preprocess_previous_applications` (source lines 57–86). -/
def preprocess_previous_applications (prev : List PrevRec) : KDF :=
  let ks := keysOf (prev.map (fun r => r.sk_id_curr))
  { keys := ks
    cols := [
      ("PREV_AMT_APPLICATION_MEAN", Series.f64 (ks.map (fun k =>
        fmean ((prevRows prev k).map (fun r => r.amt_application))))),
      ("PREV_AMT_APPLICATION_SUM", Series.f64 (ks.map (fun k =>
        fsum ((prevRows prev k).map (fun r => r.amt_application))))),
      ("PREV_AMT_CREDIT_MEAN", Series.f64 (ks.map (fun k =>
        fmean ((prevRows prev k).map (fun r => r.amt_credit))))),
      ("PREV_AMT_CREDIT_SUM", Series.f64 (ks.map (fun k =>
        fsum ((prevRows prev k).map (fun r => r.amt_credit))))),
      ("PREV_AMT_DOWN_PAYMENT_MEAN", Series.f64 (ks.map (fun k =>
        fmean ((prevRows prev k).map (fun r => r.amt_down_payment))))),
      ("PREV_AMT_ANNUITY_MEAN", Series.f64 (ks.map (fun k =>
        fmean ((prevRows prev k).map (fun r => r.amt_annuity))))),
      ("PREV_CNT_PAYMENT_MEAN", Series.f64 (ks.map (fun k =>
        fmean ((prevRows prev k).map (fun r => r.cnt_payment))))),
      ("PREV_DAYS_DECISION_MEAN", Series.f64 (ks.map (fun k =>
        fmean ((prevRows prev k).map (fun r => r.days_decision))))),
      ("PREV_SK_ID_PREV_COUNT", Series.i64 (ks.map (fun k =>
        (((prevRows prev k).filterMap (fun r => r.sk_id_prev)).length : ℤ)))),
      ("PREV_CREDIT_TO_APPLICATION_RATIO", Series.nf64 (ks.map (fun k =>
        prevCreditToApplicationRatioOf prev k)))
    ] }

/-- Row-level `PAYMENT_DELAY` (source line 92). -/
def paymentDelay (r : InstRec) : Fl := fsub r.days_entry_payment r.days_instalment

/-- Row-level `PAYMENT_RATIO` (source lines 95–96): paid over scheduled,
with infinities replaced by missing (NaN in a `float64` column). -/
def paymentRatio (r : InstRec) : Fl :=
  let x := fdiv r.amt_payment r.amt_instalment
  if x = Fl.inf ∨ x = Fl.ninf then Fl.nan else x

/-- Row-level `MISSED_PAYMENT` flag (source line 99): paid amount missing
or exactly zero. -/
def missedPayment (r : InstRec) : Bool :=
  r.amt_payment.isNan || (r.amt_payment == Fl.fin 0)

/-- The installment group of client `k`. -/
def instRows (inst : List InstRec) (k : ℤ) : List InstRec :=
  rowsBy (fun r => r.sk_id_curr) inst k

/-- `preprocess_installments` (source lines 88–113). The sum of the boolean
`MISSED_PAYMENT` column is an `int64` count, as in pandas. -/
def preprocess_installments (inst : List InstRec) : KDF :=
  let ks := keysOf (inst.map (fun r => r.sk_id_curr))
  { keys := ks
    cols := [
      ("INSTALL_PAYMENT_DELAY_MEAN", Series.f64 (ks.map (fun k =>
        fmean ((instRows inst k).map paymentDelay)))),
      ("INSTALL_PAYMENT_DELAY_MAX", Series.f64 (ks.map (fun k =>
        fmax ((instRows inst k).map paymentDelay)))),
      ("INSTALL_PAYMENT_RATIO_MEAN", Series.f64 (ks.map (fun k =>
        fmean ((instRows inst k).map paymentRatio)))),
      ("INSTALL_MISSED_PAYMENT_SUM", Series.i64 (ks.map (fun k =>
        (((instRows inst k).filter missedPayment).length : ℤ)))),
      ("INSTALL_AMT_PAYMENT_SUM", Series.f64 (ks.map (fun k =>
        fsum ((instRows inst k).map (fun r => r.amt_payment)))))
    ] }

/-- `fillna` of a `float64` column with its own median (source line 145):
each NaN entry is replaced by the median of the column's non-NaN entries.
When that median is itself NaN (all entries missing), nothing is filled,
as with pandas' `fillna` on a NaN fill value. -/
def fillMedian (vs : List Fl) : List Fl :=
  vs.map (fun v => if v.isNan then medianFl vs else v)

/-- `Series.nunique()` of an `object` column: number of distinct non-NaN
values. -/
def nuniqObj (vs : List (Option String)) : ℕ :=
  (uniqueFS (vs.filterMap id)).length

/-- `pd.factorize(column)[0]` (source line 150): integer codes in
first-seen order of the distinct non-missing values; a missing value is
encoded as `-1`. -/
def factorize (vs : List (Option String)) : List ℤ :=
  let seen := uniqueFS (vs.filterMap id)
  vs.map (fun v => match v with
    | none => (-1 : ℤ)
    | some s => ((seen.indexOf s : ℕ) : ℤ))

/-- Per-column action of `preprocess_final` (source lines 143–150):
`float64` columns are median-filled; `int64` columns carry no NaN so the
fill changes nothing; nullable `Float64` columns are not selected by
`select_dtypes(include=['float64', 'int64'])` and are left untouched;
`object` columns with exactly two distinct observed values are factorized
into `int64` codes, other `object` columns are left untouched. -/
def cleanSeries (s : Series) : Series :=
  match s with
  | Series.f64 vs => Series.f64 (fillMedian vs)
  | Series.i64 vs => Series.i64 vs
  | Series.nf64 vs => Series.nf64 vs
  | Series.obj vs => if nuniqObj vs = 2 then Series.i64 (factorize vs) else Series.obj vs

/-- `preprocess_final` (source lines 131–155). The `is_train` flag is
accepted and ignored, as in the source. The key column is an `int64`
column without missing values, so the numeric fill leaves it unchanged. -/
def preprocess_final (df : KDF) (is_train : Bool) : KDF :=
  { keys := df.keys
    cols := df.cols.map (fun c => (c.1, cleanSeries c.2)) }

/-- The externally loaded input tables (the CSV files read by the
pipeline): the two primary application variants and the three auxiliary
tables. -/
structure Env where
  application_train : KDF
  application_test : KDF
  bureau : List BureauRec
  bureau_balance : List BureauBalanceRec
  previous_application : List PrevRec
  installments_payments : List InstRec

/-- `load_application_data` (source lines 5–12): selects the train or test
primary table. The file-existence check is the external loader's concern. -/
def load_application_data (env : Env) (is_train : Bool) : KDF :=
  if is_train then env.application_train else env.application_test

/-- `prepare_dataset` (source lines 157–171): load the primary table, run
the three aggregators, merge, clean. -/
def prepare_dataset (env : Env) (is_train : Bool) : KDF :=
  let app_df := load_application_data env is_train
  let bureau_df := preprocess_bureau_data env.bureau env.bureau_balance
  let prev_app_df := preprocess_previous_applications env.previous_application
  let inst_df := preprocess_installments env.installments_payments
  let full_df := merge_all_features app_df [bureau_df, prev_app_df, inst_df]
  preprocess_final full_df is_train

/-- State of the caller's `app_df` object after `merge_all_features`
returns: the source rebinds its local name (`app_df = app_df.merge(...)`)
and never writes into the argument, so the caller's table is unchanged. -/
def merge_all_features_inputAfter (app_df : KDF) (feature_dfs : List KDF) : KDF :=
  app_df

/-- State of the caller's `df` object after `preprocess_final` returns:
the source assigns into the received frame (`df[num_cols] = ...`,
`df[col] = ...` on source lines 145 and 150), so the caller's table holds
the cleaned values — the function mutates its input in place and returns
the same object. -/
def preprocess_final_inputAfter (df : KDF) (is_train : Bool) : KDF :=
  preprocess_final df is_train

/-! ### Lemmas about grouping keys -/

theorem uniqueFS_nodup {α : Type} [DecidableEq α] (l : List α) : (uniqueFS l).Nodup := by
  unfold uniqueFS
  exact List.nodup_reverse.mpr (List.nodup_dedup _)

theorem uniqueFS_mem {α : Type} [DecidableEq α] {a : α} {l : List α} :
    a ∈ uniqueFS l ↔ a ∈ l := by
  unfold uniqueFS
  rw [List.mem_reverse, List.mem_dedup, List.mem_reverse]

theorem keysOf_nodup (ks : List (Option ℤ)) : (keysOf ks).Nodup := by
  unfold keysOf
  exact (List.perm_insertionSort _ _).nodup_iff.mpr (uniqueFS_nodup _)

theorem keysOf_mem {k : ℤ} {ks : List (Option ℤ)} :
    k ∈ keysOf ks ↔ some k ∈ ks := by
  unfold keysOf
  rw [(List.perm_insertionSort _ _).mem_iff, uniqueFS_mem, List.mem_filterMap]
  constructor
  · rintro ⟨a, ha, rfl⟩
    exact ha
  · intro h
    exact ⟨some k, h, rfl⟩

/-! ### Lemmas about the left-merge row plan -/

theorem matchIdxsAux_length (k : ℤ) (bs : List ℤ) (i : ℕ) :
    (matchIdxsAux k bs i).length = bs.count k := by
  induction bs generalizing i with
  | nil => simp [matchIdxsAux]
  | cons b bs ih =>
    by_cases h : b = k
    · simp [matchIdxsAux, h, ih, List.count_cons]
    · simp [matchIdxsAux, h, ih, List.count_cons]

theorem planFor_length (bs : List ℤ) (k : ℤ) :
    (planFor bs k).length = max 1 (bs.count k) := by
  unfold planFor
  by_cases h : (matchIdxsAux k bs 0).map some = []
  · rw [if_pos (by simp [h])]
    have : bs.count k = 0 := by
      have := matchIdxsAux_length k bs 0
      rw [List.map_eq_nil_iff] at h
      rw [h] at this
      simpa using this.symm
    simp [this]
  · rw [if_neg (by simpa [List.isEmpty_iff] using h)]
    have hlen : (matchIdxsAux k bs 0).length = bs.count k := matchIdxsAux_length k bs 0
    have hpos : 0 < bs.count k := by
      rcases Nat.eq_zero_or_pos (bs.count k) with h0 | h0
      · exfalso
        apply h
        rw [List.map_eq_nil_iff, ← List.length_eq_zero, hlen, h0]
      · exact h0
    rw [List.length_map, hlen]
    omega

theorem mergePlanAux_length (bs ks : List ℤ) (i : ℕ) :
    (mergePlanAux bs ks i).length = (ks.map (fun k => max 1 (bs.count k))).sum := by
  induction ks generalizing i with
  | nil => simp [mergePlanAux]
  | cons k ks ih =>
    simp [mergePlanAux, List.length_append, List.length_map, planFor_length, ih]

theorem mergePlanAux_keys_of_nodup {bs : List ℤ} (h : bs.Nodup) (ks : List ℤ) (i : ℕ) :
    (mergePlanAux bs ks i).map (fun t => t.1) = ks := by
  induction ks generalizing i with
  | nil => simp [mergePlanAux]
  | cons k ks ih =>
    have hcount : bs.count k ≤ 1 := List.nodup_iff_count_le_one.mp h k
    have hone : (planFor bs k).length = 1 := by
      rw [planFor_length]
      omega
    rcases List.length_eq_one.mp hone with ⟨j, hj⟩
    simp [mergePlanAux, hj, ih]

theorem leftMergeK_keys {a b : KDF} (h : b.keys.Nodup) :
    (leftMergeK a b).keys = a.keys := by
  unfold leftMergeK mergePlan
  exact mergePlanAux_keys_of_nodup h a.keys 0

theorem leftMergeK_nrow (a b : KDF) :
    nrow (leftMergeK a b) = (a.keys.map (fun k => max 1 (b.keys.count k))).sum := by
  unfold nrow leftMergeK mergePlan
  rw [List.length_map]
  exact mergePlanAux_length b.keys a.keys 0

/-! ### Keys of the aggregator outputs -/

theorem bureauBB_map_fst (bureau : List BureauRec) (bb : List BureauBalanceRec) :
    (bureauBB bureau bb).map (fun p => p.1) = bureau.map (fun r => r.sk_id_curr) := by
  unfold bureauBB
  rw [List.map_map]
  rfl

theorem bbFinalKDF_keys (bureau : List BureauRec) (bb : List BureauBalanceRec) :
    (bbFinalKDF bureau bb).keys = keysOf (bureau.map (fun r => r.sk_id_curr)) := by
  unfold bbFinalKDF
  simp only [bureauBB_map_fst]

theorem preprocess_bureau_data_keys (bureau : List BureauRec) (bb : List BureauBalanceRec) :
    (preprocess_bureau_data bureau bb).keys = keysOf (bureau.map (fun r => r.sk_id_curr)) := by
  unfold preprocess_bureau_data
  rw [leftMergeK_keys]
  · rfl
  · rw [bbFinalKDF_keys]
    exact keysOf_nodup _

theorem preprocess_previous_applications_keys (prev : List PrevRec) :
    (preprocess_previous_applications prev).keys = keysOf (prev.map (fun r => r.sk_id_curr)) :=
  rfl

theorem preprocess_installments_keys (inst : List InstRec) :
    (preprocess_installments inst).keys = keysOf (inst.map (fun r => r.sk_id_curr)) :=
  rfl

/-! ### Rows with a missing key belong to no group -/

theorem rowsBy_filter_isSome {α : Type} (key : α → Option ℤ) (l : List α) (k : ℤ) :
    rowsBy key (l.filter (fun r => (key r).isSome)) k = rowsBy key l k := by
  induction l with
  | nil => rfl
  | cons a l ih =>
    unfold rowsBy at *
    cases h : key a with
    | none => simp [h, ih]
    | some b =>
      by_cases hb : b = k
      · simp [h, hb, ih]
      · simp [h, hb, ih]

theorem filterMap_map_filter_isSome {α : Type} (key : α → Option ℤ) (l : List α) :
    ((l.filter (fun r => (key r).isSome)).map key).filterMap id =
      (l.map key).filterMap id := by
  induction l with
  | nil => rfl
  | cons a l ih =>
    cases h : key a with
    | none => simp [h, ih]
    | some b => simp [h, ih]

theorem keysOf_filter_isSome {α : Type} (key : α → Option ℤ) (l : List α) :
    keysOf ((l.filter (fun r => (key r).isSome)).map key) = keysOf (l.map key) := by
  unfold keysOf
  rw [filterMap_map_filter_isSome]

/-! ### Lemmas about the final cleaner -/

theorem isNan_iff {v : Fl} : v.isNan = true ↔ v = Fl.nan := by
  cases v <;> simp [Fl.isNan]

theorem fillMedian_of_median_nan {vs : List Fl} (h : medianFl vs = Fl.nan) :
    fillMedian vs = vs := by
  unfold fillMedian
  rw [h]
  have : ∀ v ∈ vs, (if v.isNan then Fl.nan else v) = id v := by
    intro v _
    by_cases hv : v.isNan
    · simp [hv, isNan_iff.mp hv]
    · simp [hv]
  rw [List.map_congr_left this, List.map_id]

theorem fillMedian_id_of_no_nan {vs : List Fl} (h : ∀ v ∈ vs, v ≠ Fl.nan) :
    fillMedian vs = vs := by
  unfold fillMedian
  have : ∀ v ∈ vs, (if v.isNan then medianFl vs else v) = id v := by
    intro v hv
    have : v.isNan = false := by
      cases hw : v.isNan
      · rfl
      · exact absurd (isNan_iff.mp hw) (h v hv)
    simp [this]
  rw [List.map_congr_left this, List.map_id]

theorem mem_fillMedian_no_nan {vs : List Fl} (h : medianFl vs ≠ Fl.nan) :
    ∀ v ∈ fillMedian vs, v ≠ Fl.nan := by
  intro v hv
  unfold fillMedian at hv
  rcases List.mem_map.mp hv with ⟨x, hx, rfl⟩
  by_cases hxn : x.isNan
  · simpa [hxn] using h
  · intro hcon
    rw [if_neg hxn] at hcon
    exact hxn (by rw [hcon]; rfl)

theorem fillMedian_idem (vs : List Fl) :
    fillMedian (fillMedian vs) = fillMedian vs := by
  by_cases h : medianFl vs = Fl.nan
  · rw [fillMedian_of_median_nan h]
    exact fillMedian_of_median_nan h
  · exact fillMedian_id_of_no_nan (mem_fillMedian_no_nan h)

theorem cleanSeries_idem (s : Series) : cleanSeries (cleanSeries s) = cleanSeries s := by
  cases s with
  | f64 vs => simp [cleanSeries, fillMedian_idem]
  | i64 vs => rfl
  | nf64 vs => rfl
  | obj vs =>
    by_cases h : nuniqObj vs = 2
    · simp [cleanSeries, h]
    · simp [cleanSeries, h]

theorem mem_insertFl {a x : Fl} {l : List Fl} :
    a ∈ insertFl x l ↔ a = x ∨ a ∈ l := by
  induction l with
  | nil => simp [insertFl]
  | cons y ys ih =>
    by_cases h : flLe x y
    · simp [insertFl, h]
    · simp [insertFl, h, ih]
      tauto

theorem mem_sortFl {a : Fl} {l : List Fl} : a ∈ sortFl l ↔ a ∈ l := by
  induction l with
  | nil => rfl
  | cons x xs ih =>
    simp [sortFl, mem_insertFl, ih]

theorem medianFl_fin {vs : List Fl}
    (hfin : ∀ v ∈ vs, v = Fl.nan ∨ ∃ q, v = Fl.fin q)
    (hpres : ∃ v ∈ vs, v ≠ Fl.nan) :
    ∃ q, medianFl vs = Fl.fin q := by
  obtain ⟨w, hw, hwn⟩ := hpres
  have hwb : w.isNan = false := by
    cases w
    · rfl
    · exact absurd rfl hwn
    · rfl
    · rfl
  have hwys : w ∈ vs.filter (fun v => !v.isNan) := by
    rw [List.mem_filter]
    exact ⟨hw, by simp [hwb]⟩
  simp only [medianFl]
  set xs := sortFl (vs.filter (fun v => !v.isNan)) with hxs
  have hall : ∀ v ∈ xs, ∃ q, v = Fl.fin q := by
    intro v hv
    have hv2 : v ∈ vs.filter (fun v => !v.isNan) := mem_sortFl.mp hv
    rcases List.mem_filter.mp hv2 with ⟨hv3, hv4⟩
    rcases hfin v hv3 with h | h
    · rw [h] at hv4
      simp [Fl.isNan] at hv4
    · exact h
  have hn : 0 < xs.length :=
    List.length_pos.mpr (List.ne_nil_of_mem (mem_sortFl.mpr hwys))
  rw [if_neg (by omega)]
  by_cases hodd : xs.length % 2 = 1
  · rw [if_pos hodd]
    have hlt : xs.length / 2 < xs.length := Nat.div_lt_self hn (by norm_num)
    rw [List.getD_eq_getElem _ _ hlt]
    exact hall _ (List.getElem_mem hlt)
  · rw [if_neg hodd]
    have hlt2 : xs.length / 2 < xs.length := Nat.div_lt_self hn (by norm_num)
    have hlt1 : xs.length / 2 - 1 < xs.length := by omega
    rw [List.getD_eq_getElem _ _ hlt1, List.getD_eq_getElem _ _ hlt2]
    rcases hall _ (List.getElem_mem hlt1) with ⟨a, ha⟩
    rcases hall _ (List.getElem_mem hlt2) with ⟨b, hb⟩
    rw [ha, hb]
    refine ⟨(a + b) / 2, ?_⟩
    norm_num [favg, fadd, fdiv]

theorem zip_map_snd {α β : Type} (f : α → β) (l : List α) :
    ∀ p ∈ l.zip (l.map f), p.2 = f p.1 := by
  induction l with
  | nil => simp
  | cons a l ih =>
    intro p hp
    simp only [List.map_cons, List.zip_cons_cons, List.mem_cons] at hp
    rcases hp with rfl | hp
    · rfl
    · exact ih p hp

/-! ### Claim theorems -/

/-- C1: for every input and for both train and test modes, the table
returned by `prepare_dataset` has exactly as many rows as the loaded
primary application table; no left join in `merge_all_features` adds or
removes a primary row, because every aggregator's feature table has
duplicate-free keys. -/
theorem prepare_dataset_row_count (env : Env) (is_train : Bool) :
    nrow (prepare_dataset env is_train) = nrow (load_application_data env is_train) := by
  have h1 : (preprocess_bureau_data env.bureau env.bureau_balance).keys.Nodup := by
    rw [preprocess_bureau_data_keys]
    exact keysOf_nodup _
  have h2 : (preprocess_previous_applications env.previous_application).keys.Nodup := by
    rw [preprocess_previous_applications_keys]
    exact keysOf_nodup _
  have h3 : (preprocess_installments env.installments_payments).keys.Nodup := by
    rw [preprocess_installments_keys]
    exact keysOf_nodup _
  simp only [prepare_dataset, merge_all_features, List.foldl_cons, List.foldl_nil,
    preprocess_final, nrow]
  rw [leftMergeK_keys h3, leftMergeK_keys h2, leftMergeK_keys h1]

/-- C2 counterexample: a client whose bureau records have summed credit `0`
and summed debt `50` gets `DEBT_CREDIT_RATIO = +inf` — not `0` — because
`fillna(0)` replaces only NaN, not infinity. -/
theorem debtCreditRatio_cex :
    debtCreditRatioOf [⟨some 1, some 10, Fl.fin 0, Fl.fin 50, Fl.fin 0⟩] 1 = Fl.inf ∧
    Fl.inf ≠ Fl.fin 0 ∧ Fl.inf ≠ Fl.nan := by
  refine ⟨?_, by decide, by decide⟩
  norm_num [debtCreditRatioOf, bureauRows, rowsBy, fsum, fadd, fdiv, fillna0, Fl.isNan]

/-- C2 (amended): `DEBT_CREDIT_RATIO` is summed debt over summed credit
with NaN replaced by `0`; when the summed credit is `0`, the ratio is `0`
exactly when the summed debt is also `0` (the `0/0` NaN case); a nonzero
finite summed debt over zero credit yields `+inf` (positive debt) or
`-inf` (negative debt), which `fillna(0)` leaves in place. -/
theorem debtCreditRatio_zero_denominator (bureau : List BureauRec) (k : ℤ)
    (hc : fsum ((bureauRows bureau k).map (fun r => r.amt_credit_sum)) = Fl.fin 0) :
    (fsum ((bureauRows bureau k).map (fun r => r.amt_credit_sum_debt)) = Fl.fin 0 →
      debtCreditRatioOf bureau k = Fl.fin 0) ∧
    (∀ q : ℚ, fsum ((bureauRows bureau k).map (fun r => r.amt_credit_sum_debt)) = Fl.fin q →
      0 < q → debtCreditRatioOf bureau k = Fl.inf) ∧
    (∀ q : ℚ, fsum ((bureauRows bureau k).map (fun r => r.amt_credit_sum_debt)) = Fl.fin q →
      q < 0 → debtCreditRatioOf bureau k = Fl.ninf) := by
  refine ⟨?_, ?_, ?_⟩
  · intro hd
    unfold debtCreditRatioOf
    rw [hc, hd]
    norm_num [fdiv, fillna0, Fl.isNan]
  · intro q hd hq
    unfold debtCreditRatioOf
    rw [hc, hd]
    simp [fdiv, fillna0, Fl.isNan, hq, hq.ne']
  · intro q hd hq
    unfold debtCreditRatioOf
    rw [hc, hd]
    simp [fdiv, fillna0, Fl.isNan, hq, hq.ne, not_lt_of_lt hq]

/-- C2 witness: a single bureau record with both sums zero yields ratio 0. -/
theorem debtCreditRatio_zero_denominator_witness :
    debtCreditRatioOf [⟨some 1, some 10, Fl.fin 0, Fl.fin 0, Fl.fin 0⟩] 1 = Fl.fin 0 :=
  (debtCreditRatio_zero_denominator [⟨some 1, some 10, Fl.fin 0, Fl.fin 0, Fl.fin 0⟩] 1
    (by norm_num [bureauRows, rowsBy, fsum, fadd, Fl.isNan])).1
    (by norm_num [bureauRows, rowsBy, fsum, fadd, Fl.isNan])

/-- C3 counterexample: a feature table whose key `1` occurs twice makes the
merge silently produce two output rows from a one-row primary table — no
error is raised and no uniqueness check runs before the join. -/
theorem merge_duplicate_keys_cex :
    (merge_all_features (KDF.mk [1] [])
      [KDF.mk [1, 1] [("X", Series.f64 [Fl.fin 1, Fl.fin 2])]]).keys = [1, 1] ∧
    (KDF.mk [1] [] : KDF).keys = [1] := by
  exact ⟨by decide, rfl⟩

/-- C3 (amended): `merge_all_features` performs no uniqueness check; for
any feature table, the merged row count is the sum over primary keys of
`max 1 (number of matching feature rows)` — duplicate feature keys
silently multiply the matching primary rows instead of failing fast. -/
theorem merge_row_multiplication (app_df f : KDF) :
    nrow (merge_all_features app_df [f]) =
      (app_df.keys.map (fun k => max 1 (f.keys.count k))).sum := by
  show nrow (leftMergeK app_df f) = _
  exact leftMergeK_nrow app_df f

/-- Is a column numeric in the pandas sense (`float64`, `int64`, or the
nullable `Float64`)? -/
def numericSeries : Series → Bool
  | Series.f64 _ => true
  | Series.i64 _ => true
  | Series.nf64 _ => true
  | Series.obj _ => false

/-- Does a column contain a missing value (NaN in `float64`, `pd.NA` in
`Float64`, NaN in `object`; `int64` cannot hold missing values)? -/
def seriesHasMissing : Series → Bool
  | Series.f64 vs => vs.any (fun v => v.isNan)
  | Series.i64 _ => false
  | Series.nf64 vs => vs.any (fun v => v.isNone)
  | Series.obj vs => vs.any (fun v => v.isNone)

/-- C4 counterexample: a numeric column of the nullable `Float64` dtype —
exactly the dtype of `PREV_CREDIT_TO_APPLICATION_RATIO` — is not selected
by `select_dtypes(include=['float64', 'int64'])`, so its missing value
survives the final cleaner. -/
theorem final_cleaner_missing_cex :
    ((preprocess_final (KDF.mk [1] [("R", Series.nf64 [none])]) true).cols.any
      (fun c => numericSeries c.2 && seriesHasMissing c.2)) = true := by
  decide

/-- C4 (amended): after the final cleaner, every `float64` column whose
entries are all finite-or-NaN with at least one finite entry contains no
missing value, each missing entry having been replaced by the column's
median over its non-missing entries; nullable `Float64` numeric columns
and all-missing columns are not filled. -/
theorem final_cleaner_fills_f64 (df : KDF) (mode : Bool) (name : String) (vs : List Fl)
    (hmem : (name, Series.f64 vs) ∈ df.cols)
    (hfin : ∀ v ∈ vs, v ≠ Fl.inf ∧ v ≠ Fl.ninf)
    (hpres : ∃ v ∈ vs, v ≠ Fl.nan) :
    (name, Series.f64 (fillMedian vs)) ∈ (preprocess_final df mode).cols ∧
    (∀ v ∈ fillMedian vs, v ≠ Fl.nan) ∧
    (∀ p ∈ vs.zip (fillMedian vs),
      (p.1 = Fl.nan → p.2 = medianFl vs) ∧ (p.1 ≠ Fl.nan → p.2 = p.1)) := by
  have hfin' : ∀ v ∈ vs, v = Fl.nan ∨ ∃ q, v = Fl.fin q := by
    intro v hv
    rcases hfin v hv with ⟨h1, h2⟩
    cases v with
    | fin q => exact Or.inr ⟨q, rfl⟩
    | nan => exact Or.inl rfl
    | inf => exact absurd rfl h1
    | ninf => exact absurd rfl h2
  obtain ⟨m, hm⟩ := medianFl_fin hfin' hpres
  have hmn : medianFl vs ≠ Fl.nan := by
    rw [hm]
    intro h
    cases h
  refine ⟨?_, mem_fillMedian_no_nan hmn, ?_⟩
  · show (name, Series.f64 (fillMedian vs)) ∈ df.cols.map (fun c => (c.1, cleanSeries c.2))
    exact List.mem_map.mpr ⟨(name, Series.f64 vs), hmem, rfl⟩
  · intro p hp
    have hp2 : p ∈ vs.zip (vs.map (fun v => if v.isNan then medianFl vs else v)) := hp
    have hps := zip_map_snd (fun v => if v.isNan then medianFl vs else v) vs p hp2
    constructor
    · intro h1
      rw [hps, h1]
      rfl
    · intro h1
      rw [hps]
      have hb : p.1.isNan = false := by
        cases hq : p.1.isNan
        · rfl
        · exact absurd (isNan_iff.mp hq) h1
      simp [hb]

/-- C4 witness: a column `[1, 4, NaN, 2]` is filled to `[1, 4, 2, 2]`
(median of the present values is `2`). -/
theorem final_cleaner_fills_f64_witness :
    ("A", Series.f64 [Fl.fin 1, Fl.fin 4, Fl.fin 2, Fl.fin 2]) ∈
      (preprocess_final
        (KDF.mk [1] [("A", Series.f64 [Fl.fin 1, Fl.fin 4, Fl.nan, Fl.fin 2])]) true).cols := by
  have h := (final_cleaner_fills_f64
    (KDF.mk [1] [("A", Series.f64 [Fl.fin 1, Fl.fin 4, Fl.nan, Fl.fin 2])]) true
    "A" [Fl.fin 1, Fl.fin 4, Fl.nan, Fl.fin 2]
    (by decide) (by decide) (by decide)).1
  have he : fillMedian [Fl.fin 1, Fl.fin 4, Fl.nan, Fl.fin 2] =
      [Fl.fin 1, Fl.fin 4, Fl.fin 2, Fl.fin 2] := by decide
  rw [he] at h
  exact h

/-- C5: whenever a client's summed requested amount (`AMT_APPLICATION`
sum) is zero, `PREV_CREDIT_TO_APPLICATION_RATIO` is the missing marker
`pd.NA` (`none` in the nullable-`Float64` column), never a finite number. -/
theorem prev_ratio_missing_on_zero_application (prev : List PrevRec) (k : ℤ)
    (h : fsum ((prevRows prev k).map (fun r => r.amt_application)) = Fl.fin 0) :
    prevCreditToApplicationRatioOf prev k = none := by
  unfold prevCreditToApplicationRatioOf
  rw [h]
  generalize fsum ((prevRows prev k).map (fun r => r.amt_credit)) = c
  cases c with
  | fin a =>
    by_cases ha : a = 0
    · simp [fdiv, ha, toFloat64NA]
    · by_cases hb : 0 < a
      · simp [fdiv, ha, hb, toFloat64NA]
      · simp [fdiv, ha, hb, toFloat64NA]
  | nan => simp [fdiv, toFloat64NA]
  | inf => norm_num [fdiv, toFloat64NA]
  | ninf => norm_num [fdiv, toFloat64NA]

/-- C5 witness: one previous application with requested amount 0 and
approved credit 180 yields a missing ratio. -/
theorem prev_ratio_missing_witness :
    prevCreditToApplicationRatioOf
      [⟨some 1, some 5, Fl.fin 0, Fl.fin 180, Fl.nan, Fl.nan, Fl.nan, Fl.nan⟩] 1 = none :=
  prev_ratio_missing_on_zero_application
    [⟨some 1, some 5, Fl.fin 0, Fl.fin 180, Fl.nan, Fl.nan, Fl.nan, Fl.nan⟩] 1
    (by norm_num [prevRows, rowsBy, fsum, fadd, Fl.isNan])

/-- C6: the final cleaner is idempotent — applying it to its own output
(for any train/test flags) returns that output unchanged: imputed numeric
columns and encoded binary categorical columns are fixed points. -/
theorem preprocess_final_idempotent (df : KDF) (m1 m2 : Bool) :
    preprocess_final (preprocess_final df m1) m2 = preprocess_final df m1 := by
  unfold preprocess_final
  simp only [List.map_map]
  congr 1
  apply List.map_congr_left
  intro c _
  simp [Function.comp, cleanSeries_idem]

/-- C7 counterexample: a two-valued `object` column containing a missing
entry is factorized to codes `[0, -1, 1]` — the missing entry becomes
`-1`, so not every value after cleaning is `0` or `1`. -/
theorem binary_encoding_cex :
    (preprocess_final
        (KDF.mk [1, 2, 3] [("C", Series.obj [some ("a"), none, some ("b")])]) true).cols =
      [("C", Series.i64 [0, -1, 1])] ∧ (-1 : ℤ) ≠ 0 ∧ (-1 : ℤ) ≠ 1 := by
  exact ⟨by decide, by decide, by decide⟩

/-- C7 (amended): for every `object` column with exactly two distinct
observed values, the cleaner replaces it by `pd.factorize` codes assigned
in first-seen order — the first observed value maps to `0` and the second
to `1` (deterministically within the run) — while any missing entry is
encoded as `-1` rather than `0` or `1`. -/
theorem binary_encoding_first_seen (df : KDF) (mode : Bool) (name : String)
    (vs : List (Option String))
    (hmem : (name, Series.obj vs) ∈ df.cols)
    (h2 : nuniqObj vs = 2) :
    (name, Series.i64 (factorize vs)) ∈ (preprocess_final df mode).cols ∧
    ∃ a b : String, a ≠ b ∧ uniqueFS (vs.filterMap id) = [a, b] ∧
      ∀ p ∈ vs.zip (factorize vs),
        (p.1 = some a → p.2 = 0) ∧ (p.1 = some b → p.2 = 1) ∧ (p.1 = none → p.2 = -1) := by
  have hmem2 : (name, Series.i64 (factorize vs)) ∈ (preprocess_final df mode).cols := by
    show (name, Series.i64 (factorize vs)) ∈ df.cols.map (fun c => (c.1, cleanSeries c.2))
    refine List.mem_map.mpr ⟨(name, Series.obj vs), hmem, ?_⟩
    simp [cleanSeries, h2]
  have h2len : (uniqueFS (vs.filterMap id)).length = 2 := h2
  rcases List.length_eq_two.mp h2len with ⟨a, b, hab⟩
  have hnd : (uniqueFS (vs.filterMap id)).Nodup := uniqueFS_nodup _
  rw [hab] at hnd
  have hne : a ≠ b := by
    rcases List.nodup_cons.mp hnd with ⟨hna, _⟩
    intro h
    exact hna (by rw [h]; exact List.mem_singleton_self b)
  refine ⟨hmem2, a, b, hne, hab, ?_⟩
  intro p hp
  have hp2 : p ∈ vs.zip (vs.map (fun v => match v with
      | none => (-1 : ℤ)
      | some s => (((uniqueFS (vs.filterMap id)).indexOf s : ℕ) : ℤ))) := hp
  have hps := zip_map_snd (fun v => match v with
      | none => (-1 : ℤ)
      | some s => (((uniqueFS (vs.filterMap id)).indexOf s : ℕ) : ℤ)) vs p hp2
  refine ⟨?_, ?_, ?_⟩
  · intro h1
    rw [hps, h1, hab]
    simp [List.indexOf_cons_self]
  · intro h1
    rw [hps, h1, hab]
    show ((([a, b]).indexOf b : ℕ) : ℤ) = 1
    rw [List.indexOf_cons_ne _ hne, List.indexOf_cons_self]
    rfl
  · intro h1
    rw [hps, h1]

/-- C7 witness: the column `["M", "F", "M"]` is encoded as `[0, 1, 0]`
(first-seen value `M` gets code `0`). -/
theorem binary_encoding_first_seen_witness :
    ("G", Series.i64 [0, 1, 0]) ∈
      (preprocess_final
        (KDF.mk [1, 2, 3] [("G", Series.obj [some ("M"), some ("F"), some ("M")])]) true).cols := by
  have h := (binary_encoding_first_seen
    (KDF.mk [1, 2, 3] [("G", Series.obj [some ("M"), some ("F"), some ("M")])]) true
    "G" [some ("M"), some ("F"), some ("M")] (by decide) (by decide)).1
  have he : factorize [some ("M"), some ("F"), some ("M")] = [0, 1, 0] := by decide
  rw [he] at h
  exact h

/-- C8: each of the three aggregators returns a feature table whose key
column is duplicate-free, containing exactly the distinct non-missing
client identifiers present in that aggregator's input records — uniqueness
comes from the group-by itself, with no separate deduplication of output
rows. -/
theorem aggregator_keys_unique (bureau : List BureauRec) (bb : List BureauBalanceRec)
    (prev : List PrevRec) (inst : List InstRec) :
    ((preprocess_bureau_data bureau bb).keys.Nodup ∧
      ∀ k : ℤ, k ∈ (preprocess_bureau_data bureau bb).keys ↔
        some k ∈ bureau.map (fun r => r.sk_id_curr)) ∧
    ((preprocess_previous_applications prev).keys.Nodup ∧
      ∀ k : ℤ, k ∈ (preprocess_previous_applications prev).keys ↔
        some k ∈ prev.map (fun r => r.sk_id_curr)) ∧
    ((preprocess_installments inst).keys.Nodup ∧
      ∀ k : ℤ, k ∈ (preprocess_installments inst).keys ↔
        some k ∈ inst.map (fun r => r.sk_id_curr)) := by
  refine ⟨⟨?_, ?_⟩, ⟨?_, ?_⟩, ⟨?_, ?_⟩⟩
  · rw [preprocess_bureau_data_keys]
    exact keysOf_nodup _
  · intro k
    rw [preprocess_bureau_data_keys]
    exact keysOf_mem
  · rw [preprocess_previous_applications_keys]
    exact keysOf_nodup _
  · intro k
    rw [preprocess_previous_applications_keys]
    exact keysOf_mem
  · rw [preprocess_installments_keys]
    exact keysOf_nodup _
  · intro k
    rw [preprocess_installments_keys]
    exact keysOf_mem

/-- C9 counterexample: the final cleaner writes into the frame it
receives (in-place column assignment), so after the call the caller's
table holds the cleaned values, not the original ones — here a NaN cell
has been overwritten by the column median. -/
theorem final_cleaner_mutates_cex :
    preprocess_final_inputAfter (KDF.mk [7, 8] [("A", Series.f64 [Fl.nan, Fl.fin 1])]) true ≠
      KDF.mk [7, 8] [("A", Series.f64 [Fl.nan, Fl.fin 1])] := by
  decide

/-- C9 (amended): the merge combinator leaves the caller's application
table unchanged (it only rebinds a local name), but the final cleaner
mutates the table it receives in place: after the call the caller's table
equals the cleaned output, which differs from the original whenever the
cleaning changes anything. -/
theorem components_frame_effects :
    (∀ (app_df : KDF) (feature_dfs : List KDF),
      merge_all_features_inputAfter app_df feature_dfs = app_df) ∧
    (∃ (df : KDF) (mode : Bool), preprocess_final_inputAfter df mode ≠ df) := by
  refine ⟨fun _ _ => rfl, ⟨KDF.mk [7] [("B", Series.f64 [Fl.nan, Fl.fin 1, Fl.fin 3])], true, ?_⟩⟩
  decide

/-! ### C10: rows with a missing client identifier contribute to no group -/

theorem bureauRows_dropna (bureau : List BureauRec) :
    bureauRows (bureau.filter (fun r => r.sk_id_curr.isSome)) = bureauRows bureau := by
  funext k
  exact rowsBy_filter_isSome (fun r => r.sk_id_curr) bureau k

theorem debtCreditRatioOf_dropna (bureau : List BureauRec) :
    debtCreditRatioOf (bureau.filter (fun r => r.sk_id_curr.isSome)) = debtCreditRatioOf bureau := by
  funext k
  unfold debtCreditRatioOf
  rw [bureauRows_dropna]

theorem keysOf_dropna_bureau (bureau : List BureauRec) :
    keysOf ((bureau.filter (fun r => r.sk_id_curr.isSome)).map (fun r => r.sk_id_curr)) =
      keysOf (bureau.map (fun r => r.sk_id_curr)) :=
  keysOf_filter_isSome (fun r => r.sk_id_curr) bureau

theorem bureauAggKDF_dropna (bureau : List BureauRec) :
    bureauAggKDF (bureau.filter (fun r => r.sk_id_curr.isSome)) = bureauAggKDF bureau := by
  simp only [bureauAggKDF]
  rw [keysOf_dropna_bureau, bureauRows_dropna, debtCreditRatioOf_dropna]

theorem bureauBB_rowsBy_dropna (bureau : List BureauRec) (bb : List BureauBalanceRec) :
    rowsBy (fun p => p.1) (bureauBB (bureau.filter (fun r => r.sk_id_curr.isSome)) bb) =
      rowsBy (fun p => p.1) (bureauBB bureau bb) := by
  funext k
  unfold bureauBB rowsBy
  rw [List.filter_map, List.filter_map]
  congr 1
  show rowsBy (fun r => r.sk_id_curr) (bureau.filter (fun r => r.sk_id_curr.isSome)) k =
    rowsBy (fun r => r.sk_id_curr) bureau k
  exact rowsBy_filter_isSome (fun r => r.sk_id_curr) bureau k

theorem bbFinalKDF_dropna (bureau : List BureauRec) (bb : List BureauBalanceRec) :
    bbFinalKDF (bureau.filter (fun r => r.sk_id_curr.isSome)) bb = bbFinalKDF bureau bb := by
  simp only [bbFinalKDF]
  rw [bureauBB_map_fst, bureauBB_map_fst, keysOf_dropna_bureau, bureauBB_rowsBy_dropna]

theorem prevRows_dropna (prev : List PrevRec) :
    prevRows (prev.filter (fun r => r.sk_id_curr.isSome)) = prevRows prev := by
  funext k
  exact rowsBy_filter_isSome (fun r => r.sk_id_curr) prev k

theorem prevRatio_dropna (prev : List PrevRec) :
    prevCreditToApplicationRatioOf (prev.filter (fun r => r.sk_id_curr.isSome)) =
      prevCreditToApplicationRatioOf prev := by
  funext k
  unfold prevCreditToApplicationRatioOf
  rw [prevRows_dropna]

theorem keysOf_dropna_prev (prev : List PrevRec) :
    keysOf ((prev.filter (fun r => r.sk_id_curr.isSome)).map (fun r => r.sk_id_curr)) =
      keysOf (prev.map (fun r => r.sk_id_curr)) :=
  keysOf_filter_isSome (fun r => r.sk_id_curr) prev

theorem instRows_dropna (inst : List InstRec) :
    instRows (inst.filter (fun r => r.sk_id_curr.isSome)) = instRows inst := by
  funext k
  exact rowsBy_filter_isSome (fun r => r.sk_id_curr) inst k

theorem keysOf_dropna_inst (inst : List InstRec) :
    keysOf ((inst.filter (fun r => r.sk_id_curr.isSome)).map (fun r => r.sk_id_curr)) =
      keysOf (inst.map (fun r => r.sk_id_curr)) :=
  keysOf_filter_isSome (fun r => r.sk_id_curr) inst

/-- C10: in every aggregator, an input row whose client identifier is
missing contributes to no group — removing all such rows beforehand
changes nothing in the aggregator's output, because `groupby` drops
missing keys; consequently no feature-table row carries a missing client
identifier (feature-table keys are plain integers). -/
theorem missing_key_rows_contribute_nothing (bureau : List BureauRec)
    (bb : List BureauBalanceRec) (prev : List PrevRec) (inst : List InstRec) :
    preprocess_bureau_data (bureau.filter (fun r => r.sk_id_curr.isSome)) bb =
      preprocess_bureau_data bureau bb ∧
    preprocess_previous_applications (prev.filter (fun r => r.sk_id_curr.isSome)) =
      preprocess_previous_applications prev ∧
    preprocess_installments (inst.filter (fun r => r.sk_id_curr.isSome)) =
      preprocess_installments inst := by
  refine ⟨?_, ?_, ?_⟩
  · unfold preprocess_bureau_data
    rw [bureauAggKDF_dropna, bbFinalKDF_dropna]
  · simp only [preprocess_previous_applications]
    rw [keysOf_dropna_prev, prevRows_dropna, prevRatio_dropna]
  · simp only [preprocess_installments]
    rw [keysOf_dropna_inst, instRows_dropna]
